import Mathlib

/-!
Shallow embedding of the progress-aggregation and points-distribution engine
of the user_management backend (Mongoose models `Project`, `DailyUpdate`,
`UserStats` and the module controller), together with proofs of the spec's
claims about it.  JavaScript numbers are modelled as exact rationals and
`Math.round` as `jsRound`.
-/

namespace UserManagement

/-- JavaScript `Math.round`: round half toward positive infinity. -/
def jsRound (q : ℚ) : ℤ := ⌊q + 1 / 2⌋

/-- Project status enum (`Project.js` schema). -/
inductive PStatus
  | pending
  | inProgress
  | completed
  | onHold
  | cancelled
deriving DecidableEq, Repr

/-- Module status enum (`Module.js` schema). -/
inductive MStatus
  | pending
  | inProgress
  | completed
  | blocked
deriving DecidableEq, Repr

/-- Role recorded in a `UserStats.projectHistory` entry. -/
inductive Role
  | lead
  | member
deriving DecidableEq, Repr

/-- A persisted `DailyUpdate` document, restricted to the fields the
aggregation cascade reads.  `user` is the owning user's id, `createdAt`
the creation timestamp used by the newest-first sort. -/
structure DUpdate where
  user : Nat
  hoursWorked : ℚ
  progressPercentage : ℚ
  createdAt : Nat
deriving DecidableEq, Repr

/-- Efficiency multiplier of `calculateAndDistributePoints`
(`Project.js` lines 141-153). -/
def efficiencyMultiplier (totalEstimatedHours totalActualHours : ℚ) : ℚ :=
  if totalActualHours > 0 ∧ totalEstimatedHours > 0 then
    let efficiency := totalEstimatedHours / totalActualHours
    if efficiency ≥ 1 then 1 + (efficiency - 1) * 0.5
    else efficiency
  else 1

/-- Deadline multiplier of `calculateAndDistributePoints`
(`Project.js` lines 155-169); timestamps are in milliseconds. -/
def deadlineMultiplier (completedAt deadline : Option ℚ) : ℚ :=
  match completedAt, deadline with
  | some completedTime, some deadlineTime =>
    let daysDifference := (deadlineTime - completedTime) / (1000 * 60 * 60 * 24)
    if daysDifference > 0 then 1 + min (daysDifference / 10) 0.5
    else if daysDifference < 0 then max (1 + daysDifference / 20) 0.5
    else 1
  | _, _ => 1

/-- A persisted `Module` document, restricted to the fields the aggregation
cascade reads and writes. -/
structure ModuleState where
  progress : ℚ
  estimatedTime : ℚ
  actualTime : ℚ
  status : MStatus
  startDate : Option ℚ
  endDate : Option ℚ
deriving DecidableEq, Repr

/-- Insertion step of the newest-first sort used by
`DailyUpdate.find({module}).sort({createdAt: -1})`. -/
def insertByCreatedDesc (u : DUpdate) : List DUpdate → List DUpdate
  | [] => [u]
  | v :: rest =>
    if v.createdAt ≤ u.createdAt then u :: v :: rest
    else v :: insertByCreatedDesc u rest

/-- Newest-first ordering of a module's daily updates by `createdAt`. -/
def sortByCreatedDesc (l : List DUpdate) : List DUpdate :=
  l.foldr insertByCreatedDesc []

/-- The `dailyUpdateSchema.post('save')` hook (`DailyUpdate.js` lines
64-99): recompute the module from the complete, newest-first-sorted set of
its daily updates.  With zero updates nothing happens. -/
def recomputeModule (updates : List DUpdate) (m : ModuleState) (now : ℚ) :
    ModuleState :=
  match sortByCreatedDesc updates with
  | [] => m
  | latest :: rest =>
    let latestProgress := latest.progressPercentage
    let totalHours := ((latest :: rest).map (fun u => u.hoursWorked)).sum
    let m1 : ModuleState :=
      { m with progress := latestProgress, actualTime := totalHours }
    if latestProgress = 100 ∧ m1.status ≠ MStatus.completed then
      { m1 with status := MStatus.completed, endDate := some now }
    else if latestProgress > 0 ∧ m1.status = MStatus.pending then
      { m1 with status := MStatus.inProgress,
                startDate := some (m1.startDate.getD now) }
    else m1

/-- A `UserStats.projectHistory` entry, restricted to the fields the engine
writes (the project id itself plays no role in the claims). -/
structure HistoryEntry where
  role : Role
  pointsEarned : ℚ
  hoursWorked : ℚ
  completedAt : Option ℚ
deriving DecidableEq, Repr

/-- A `UserStats.monthlyStats` bucket. -/
structure MonthStat where
  month : String
  projectsCompleted : ℚ
  hoursWorked : ℚ
  pointsEarned : ℚ
deriving DecidableEq, Repr

/-- A persisted `UserStats` document, restricted to the fields the engine
and the stats endpoints read or write. -/
structure UserStatsState where
  totalProjects : ℚ
  completedProjects : ℚ
  totalHoursWorked : ℚ
  totalPoints : ℚ
  projectHistory : List HistoryEntry
  monthlyStats : List MonthStat
deriving DecidableEq, Repr

/-- A freshly created `UserStats` document: every counter takes its schema
default 0. -/
def defaultUserStats : UserStatsState :=
  UserStatsState.mk 0 0 0 0 [] []

/-- Method `addProjectToHistory` of `userStatsSchema` (`UserStats.js`): append
the entry, bump `completedProjects` for a lead entry, always add the points
and hours, and update or create the current month's bucket. -/
def addProjectToHistory (s : UserStatsState) (e : HistoryEntry)
    (monthKey : String) : UserStatsState :=
  let s1 := { s with projectHistory := s.projectHistory ++ [e] }
  let s2 :=
    if e.role = Role.lead then
      { s1 with completedProjects := s1.completedProjects + 1 }
    else s1
  let s3 := { s2 with totalPoints := s2.totalPoints + e.pointsEarned,
                      totalHoursWorked := s2.totalHoursWorked + e.hoursWorked }
  match s3.monthlyStats.find? (fun ms => ms.month == monthKey) with
  | some _ =>
    { s3 with monthlyStats := s3.monthlyStats.map (fun ms =>
        if ms.month == monthKey then
          { ms with projectsCompleted := ms.projectsCompleted + 1,
                    pointsEarned := ms.pointsEarned + e.pointsEarned,
                    hoursWorked := ms.hoursWorked + e.hoursWorked }
        else ms) }
  | none =>
    { s3 with monthlyStats := s3.monthlyStats ++
        [MonthStat.mk monthKey 1 e.hoursWorked e.pointsEarned] }

/-- The `UserStats` collection, keyed by user id. -/
abbrev StatsStore := List (Nat × UserStatsState)

/-- Lookup `UserStats.findOne` by user id. -/
def findStats : StatsStore → Nat → Option UserStatsState
  | [], _ => none
  | (v, sv) :: rest, u => if v = u then some sv else findStats rest u

/-- Persisting a user's stats document (replace, or insert when new). -/
def setStats : StatsStore → Nat → UserStatsState → StatsStore
  | [], u, sv => [(u, sv)]
  | (v, sv0) :: rest, u, sv =>
    if v = u then (v, sv) :: rest else (v, sv0) :: setStats rest u sv

/-- The find-or-create / addProjectToHistory / save sequence the
distribution uses for every recipient. -/
def creditUser (store : StatsStore) (u : Nat) (e : HistoryEntry)
    (monthKey : String) : StatsStore :=
  setStats store u
    (addProjectToHistory ((findStats store u).getD defaultUserStats) e monthKey)

/-- A persisted `Project` document, restricted to the fields the engine
reads or writes.  `assignedLead` is a user id. -/
structure ProjectState where
  assignedLead : Nat
  progress : ℚ
  status : PStatus
  completedAt : Option ℚ
  deadline : Option ℚ
  totalEstimatedHours : ℚ
  totalActualHours : ℚ
  basePoints : ℚ
  pointsDistributed : Bool
deriving DecidableEq, Repr

/-- The project together with the `UserStats` collection the distribution
writes into. -/
structure DistState where
  project : ProjectState
  stats : StatsStore
deriving DecidableEq, Repr

/-- Total project points (`Project.js` line 172):
`basePoints * efficiencyMultiplier * deadlineMultiplier`. -/
def projectTotalPoints (p : ProjectState) : ℚ :=
  p.basePoints * efficiencyMultiplier p.totalEstimatedHours p.totalActualHours *
    deadlineMultiplier p.completedAt p.deadline

/-- One step of the `userHours` accumulation: JavaScript object keys keep
first-occurrence order. -/
def addHours : List (Nat × ℚ) → Nat → ℚ → List (Nat × ℚ)
  | [], u, h => [(u, h)]
  | (v, hv) :: rest, u, h =>
    if v = u then (v, hv + h) :: rest else (v, hv) :: addHours rest u h

/-- Per-user summed hoursWorked over all of the project's daily updates
(`Project.js` lines 198-207). -/
def aggregateHours (updates : List DUpdate) : List (Nat × ℚ) :=
  updates.foldl (fun acc up => addHours acc up.user up.hoursWorked) []

/-- The history entry built for one contributing member:
`round((hours / totalUserHours) * userPoints)` points (`Project.js` lines
212-227). -/
def memberShareEntry (completedAt : Option ℚ) (totalUserHours userPoints : ℚ)
    (q : Nat × ℚ) : HistoryEntry :=
  HistoryEntry.mk Role.member
    ((jsRound (q.2 / totalUserHours * userPoints) : ℤ) : ℚ) q.2 completedAt

/-- Body of the member-distribution loop: each entry is credited only when
`totalUserHours > 0`. -/
def distributeStep (completedAt : Option ℚ) (totalUserHours userPoints : ℚ)
    (monthKey : String) (st : StatsStore) (q : Nat × ℚ) : StatsStore :=
  if totalUserHours > 0 then
    creditUser st q.1 (memberShareEntry completedAt totalUserHours userPoints q)
      monthKey
  else st

/-- Method `calculateAndDistributePoints` of `projectSchema` (`Project.js`
lines 133-235).  `updates` is `DailyUpdate.find({project: this._id})` and
`monthKey` the current `YYYY-MM` key. -/
def calculateAndDistributePoints (s : DistState) (updates : List DUpdate)
    (monthKey : String) : DistState :=
  if s.project.pointsDistributed then s
  else
    let totalPoints := projectTotalPoints s.project
    let leadPoints := jsRound (totalPoints * 0.4)
    let store1 := creditUser s.stats s.project.assignedLead
      (HistoryEntry.mk Role.lead (leadPoints : ℚ) s.project.totalActualHours
        s.project.completedAt) monthKey
    let userPoints := totalPoints * 0.6
    let userHours := aggregateHours updates
    let totalUserHours := (userHours.map (fun q => q.2)).sum
    let store2 := userHours.foldl
      (distributeStep s.project.completedAt totalUserHours userPoints monthKey)
      store1
    DistState.mk { s.project with pointsDistributed := true } store2

/-- The history list the store holds for user `u` (empty before first
contact). -/
def statHistory (store : StatsStore) (u : Nat) : List HistoryEntry :=
  ((findStats store u).getD defaultUserStats).projectHistory

/-- The pure aggregation part of `calculateProgress` (`Project.js` lines
110-116), for a nonempty module list. -/
def projectAggregate (p : ProjectState) (modules : List ModuleState) :
    ProjectState :=
  { p with
    progress :=
      ((jsRound ((modules.map (fun md => md.progress)).sum /
        (modules.length : ℚ))) : ℚ)
    totalEstimatedHours := (modules.map (fun md => md.estimatedTime)).sum
    totalActualHours := (modules.map (fun md => md.actualTime)).sum }

/-- Method `calculateProgress` of `projectSchema` (`Project.js` lines 101-130):
recompute progress and hour totals from the modules, detect completion and
trigger the one-shot points distribution. -/
def calculateProgress (s : DistState) (modules : List ModuleState) (now : ℚ)
    (updates : List DUpdate) (monthKey : String) : DistState :=
  if modules = [] then
    DistState.mk { s.project with progress := 0 } s.stats
  else
    let p := projectAggregate s.project modules
    if p.progress = 100 ∧ p.status ≠ PStatus.completed then
      let p2 := { p with status := PStatus.completed, completedAt := some now }
      if p2.pointsDistributed = false then
        calculateAndDistributePoints (DistState.mk p2 s.stats) updates monthKey
      else DistState.mk p2 s.stats
    else DistState.mk p s.stats

/-- Completion-rate computation of the my-stats endpoint
(`statsController.js` lines 29-33). -/
def completionRate (s : UserStatsState) : ℚ :=
  if s.totalProjects > 0 then
    ((jsRound (s.completedProjects / s.totalProjects * 100) : ℤ) : ℚ)
  else 0

/-- A just-completed example project: base points 100 and neutral
multipliers (estimated = actual = 100, completed exactly at the
deadline). -/
def exampleProject : ProjectState :=
  ProjectState.mk 0 100 PStatus.completed (some 0) (some 0) 100 100 100 false

/-- Example daily updates: user 1 worked 60 hours, user 2 worked 40. -/
def exampleUpdates : List DUpdate :=
  [DUpdate.mk 1 60 100 1, DUpdate.mk 2 40 100 2]

/-- Example modules with progress values 50, 75 and 25. -/
def exampleModules : List ModuleState :=
  [ModuleState.mk 50 10 5 MStatus.inProgress none none,
   ModuleState.mk 75 10 5 MStatus.inProgress none none,
   ModuleState.mk 25 10 5 MStatus.inProgress none none]

/-- The part of a module the direct progress PATCH handler
(`updateModuleProgress` in the module controller) reads and writes. -/
structure ProgressModule where
  progress : ℚ
  status : MStatus
deriving DecidableEq, Repr

/-- Core of `updateModuleProgress` (module controller lines 285-321), after
the not-found and assignment checks have passed: the guard
`req.body.progress < module.progress && module.progress > 0` rejects with a
400 validation failure, otherwise the value is clamped to [0,100] and the
status derived from it. -/
def updateModuleProgress (m : ProgressModule) (reqProgress : ℚ) :
    Except String ProgressModule :=
  if reqProgress < m.progress ∧ m.progress > 0 then
    Except.error "Cannot decrease progress"
  else
    let p := min 100 (max 0 reqProgress)
    Except.ok { progress := p
                status := if p = 100 then MStatus.completed else MStatus.inProgress }

/-- Effect of one direct progress request on the stored module: a rejected
request leaves the stored module unchanged. -/
def progressStep (m : ProgressModule) (req : ℚ) : ProgressModule :=
  match updateModuleProgress m req with
  | Except.ok m2 => m2
  | Except.error _ => m

/-- Effect of a sequence of direct progress requests on the stored module. -/
def applyProgressRequests (m : ProgressModule) (reqs : List ℚ) : ProgressModule :=
  reqs.foldl progressStep m

end UserManagement

namespace UserManagement

/-- C3: the efficiency multiplier is 1 when either hours total is not
positive; otherwise with `e = est / act` it is `1 + (e - 1) * 0.5` when
`e ≥ 1` (and is unbounded above over such inputs), and is `e` itself,
a value `< 1`, when `e < 1`. -/
theorem efficiency_multiplier_cases (est act : ℚ) :
    (¬(act > 0 ∧ est > 0) → efficiencyMultiplier est act = 1) ∧
    (act > 0 → est > 0 → est / act ≥ 1 →
      efficiencyMultiplier est act = 1 + (est / act - 1) * 0.5) ∧
    (act > 0 → est > 0 → est / act < 1 →
      efficiencyMultiplier est act = est / act ∧ efficiencyMultiplier est act < 1) ∧
    (∀ B : ℚ, ∃ e a : ℚ, a > 0 ∧ e > 0 ∧ efficiencyMultiplier e a > B) := by
  refine ⟨?_, ?_, ?_, ?_⟩
  · intro h
    simp [efficiencyMultiplier, h]
  · intro ha he hr
    simp only [efficiencyMultiplier, if_pos (And.intro ha he), if_pos hr]
  · intro ha he hr
    have hnr : ¬(est / act ≥ 1) := not_le.mpr hr
    constructor
    · simp only [efficiencyMultiplier, if_pos (And.intro ha he), if_neg hnr]
    · simp only [efficiencyMultiplier, if_pos (And.intro ha he), if_neg hnr]
      exact hr
  · intro B
    refine ⟨max 1 (2 * B + 1), 1, one_pos, lt_of_lt_of_le one_pos (le_max_left _ _), ?_⟩
    have h1 : (1 : ℚ) ≤ max 1 (2 * B + 1) := le_max_left _ _
    have hpos : max 1 (2 * B + 1) > 0 := lt_of_lt_of_le one_pos h1
    simp only [efficiencyMultiplier, if_pos (And.intro one_pos hpos), div_one]
    have hge : (max 1 (2 * B + 1) : ℚ) ≥ 1 := h1
    rw [if_pos hge]
    have h2 : 2 * B + 1 ≤ max 1 (2 * B + 1) := le_max_right _ _
    have hhalf : (0.5 : ℚ) = 1 / 2 := by norm_num
    rw [hhalf]
    linarith

/-- Witness for `efficiency_multiplier_cases` at est = 100, act = 80. -/
theorem efficiency_multiplier_cases_witness :
    (100 : ℚ) / 80 ≥ 1 ∧
    efficiencyMultiplier 100 80 = 1 + ((100 : ℚ) / 80 - 1) * 0.5 :=
  ⟨by norm_num,
    (efficiency_multiplier_cases 100 80).2.1 (by norm_num) (by norm_num) (by norm_num)⟩

/-- C4 counterexample: with estimated = 100 and actual = 80 the code's
efficiency multiplier is 1.125, not the claimed 1.25 (1.25 is the raw
efficiency; the half-credit formula yields 1 + 0.25 * 0.5 = 1.125). -/
theorem efficiency_multiplier_not_125 :
    efficiencyMultiplier 100 80 = 1.125 ∧ (1.125 : ℚ) ≠ 1.25 := by
  constructor
  · norm_num [efficiencyMultiplier]
  · norm_num

/-- C4 amended: with estimated = 100 and actual = 80 the efficiency is
1.25 and the multiplier is 1.125; with estimated = 100 and actual = 120
the multiplier is 5/6, within 0.001 of 0.833. -/
theorem efficiency_multiplier_values :
    (100 : ℚ) / 80 = 1.25 ∧
    efficiencyMultiplier 100 80 = 1.125 ∧
    efficiencyMultiplier 100 120 = 5 / 6 ∧
    |efficiencyMultiplier 100 120 - 0.833| < 0.001 := by
  refine ⟨by norm_num, ?_, ?_, ?_⟩
  · norm_num [efficiencyMultiplier]
  · norm_num [efficiencyMultiplier]
  · have h : efficiencyMultiplier 100 120 = 5 / 6 := by norm_num [efficiencyMultiplier]
    rw [h, abs_lt]
    norm_num

/-- C5: when both dates are set, the deadline multiplier is
`1 + min (dd/10) 0.5` for positive day difference `dd`,
`max (1 + dd/20) 0.5` for negative `dd`, and 1 at `dd = 0`; 30 days early
gives exactly 1.5 and 30 days late gives exactly 0.5. -/
theorem deadline_multiplier_cases (completedTime deadlineTime : ℚ) :
    (((deadlineTime - completedTime) / 86400000 > 0) →
      deadlineMultiplier (some completedTime) (some deadlineTime) =
        1 + min ((deadlineTime - completedTime) / 86400000 / 10) 0.5) ∧
    (((deadlineTime - completedTime) / 86400000 < 0) →
      deadlineMultiplier (some completedTime) (some deadlineTime) =
        max (1 + (deadlineTime - completedTime) / 86400000 / 20) 0.5) ∧
    (((deadlineTime - completedTime) / 86400000 = 0) →
      deadlineMultiplier (some completedTime) (some deadlineTime) = 1) ∧
    deadlineMultiplier (some 0) (some (30 * 86400000)) = 1.5 ∧
    deadlineMultiplier (some (30 * 86400000)) (some 0) = 0.5 := by
  have hms : (1000 * 60 * 60 * 24 : ℚ) = 86400000 := by norm_num
  refine ⟨?_, ?_, ?_, ?_, ?_⟩
  · intro h
    simp only [deadlineMultiplier, hms, if_pos h]
  · intro h
    have hnp : ¬((deadlineTime - completedTime) / 86400000 > 0) := by linarith
    simp only [deadlineMultiplier, hms, if_neg hnp, if_pos h]
  · intro h
    have hnp : ¬((deadlineTime - completedTime) / 86400000 > 0) := by rw [h]; norm_num
    have hnn : ¬((deadlineTime - completedTime) / 86400000 < 0) := by rw [h]; norm_num
    simp only [deadlineMultiplier, hms, if_neg hnp, if_neg hnn]
  · have h30 : ((30 * 86400000 : ℚ) - 0) / 86400000 = 30 := by norm_num
    simp only [deadlineMultiplier, hms, h30]
    norm_num
  · have h30 : ((0 : ℚ) - 30 * 86400000) / 86400000 = -30 := by norm_num
    simp only [deadlineMultiplier, hms, h30]
    norm_num

/-- Witness for `deadline_multiplier_cases`: ten days early yields a 2-point
(20 percent) bonus. -/
theorem deadline_multiplier_cases_witness :
    ((10 * 86400000 : ℚ) - 0) / 86400000 > 0 ∧
    deadlineMultiplier (some 0) (some (10 * 86400000)) =
      1 + min (((10 * 86400000 : ℚ) - 0) / 86400000 / 10) 0.5 :=
  ⟨by norm_num, (deadline_multiplier_cases 0 (10 * 86400000)).1 (by norm_num)⟩

/-- An accepted request stores the clamped value. -/
theorem updateModuleProgress_ok_progress (m : ProgressModule) (req : ℚ)
    (m2 : ProgressModule) (h : updateModuleProgress m req = Except.ok m2) :
    m2.progress = min 100 (max 0 req) := by
  by_cases hc : req < m.progress ∧ m.progress > 0
  · simp [updateModuleProgress, hc] at h
  · simp only [updateModuleProgress, if_neg hc, Except.ok.injEq] at h
    rw [← h]

/-- One request never decreases the stored progress and keeps it in [0,100]. -/
theorem progressStep_mono (m : ProgressModule) (req : ℚ)
    (h0 : 0 ≤ m.progress) (h100 : m.progress ≤ 100) :
    m.progress ≤ (progressStep m req).progress ∧
    0 ≤ (progressStep m req).progress ∧ (progressStep m req).progress ≤ 100 := by
  unfold progressStep
  by_cases hc : req < m.progress ∧ m.progress > 0
  · simp only [updateModuleProgress, if_pos hc]
    exact ⟨le_refl _, h0, h100⟩
  · simp only [updateModuleProgress, if_neg hc]
    refine ⟨?_, le_min (by norm_num) (le_max_left 0 req), min_le_left _ _⟩
    rcases lt_or_le 0 m.progress with hpos | hz
    · have hreq : m.progress ≤ req := by
        by_contra hr
        exact hc ⟨lt_of_not_le hr, hpos⟩
      exact le_min h100 (le_trans hreq (le_max_right 0 req))
    · exact le_trans hz (le_min (by norm_num) (le_max_left 0 req))

/-- Once the stored progress is 100, a request keeps it at 100. -/
theorem progressStep_terminal (m : ProgressModule) (req : ℚ)
    (h : m.progress = 100) : (progressStep m req).progress = 100 := by
  unfold progressStep
  by_cases hc : req < m.progress ∧ m.progress > 0
  · simp only [updateModuleProgress, if_pos hc]
    exact h
  · have hreq : (100 : ℚ) ≤ req := by
      by_contra hr
      exact hc ⟨by rw [h]; exact lt_of_not_le hr, by rw [h]; norm_num⟩
    have hmax : (100 : ℚ) ≤ max 0 req := le_trans hreq (le_max_right 0 req)
    simp only [updateModuleProgress, if_neg hc]
    exact min_eq_left hmax

/-- Over a request sequence the stored progress never decreases and stays
in [0,100]. -/
theorem applyProgressRequests_mono (reqs : List ℚ) :
    ∀ m : ProgressModule, 0 ≤ m.progress → m.progress ≤ 100 →
      m.progress ≤ (applyProgressRequests m reqs).progress ∧
      (applyProgressRequests m reqs).progress ≤ 100 := by
  induction reqs with
  | nil => intro m h0 h100; exact ⟨le_refl _, h100⟩
  | cons r rest ih =>
    intro m h0 h100
    obtain ⟨h1, h2, h3⟩ := progressStep_mono m r h0 h100
    obtain ⟨h4, h5⟩ := ih (progressStep m r) h2 h3
    exact ⟨le_trans h1 h4, h5⟩

/-- Over a request sequence, stored progress 100 is terminal. -/
theorem applyProgressRequests_terminal (reqs : List ℚ) :
    ∀ m : ProgressModule, m.progress = 100 →
      (applyProgressRequests m reqs).progress = 100 := by
  induction reqs with
  | nil => intro m h; exact h
  | cons r rest ih =>
    intro m h
    exact ih (progressStep m r) (progressStep_terminal m r h)

/-- C9 counterexample: with stored progress 0, the request −10 satisfies
newProgress < currentProgress yet is NOT rejected: the guard also requires
`module.progress > 0`, so the handler accepts it and even changes the
module, setting status to in_progress. -/
theorem module_progress_guard_counterexample :
    (-10 : ℚ) < (ProgressModule.mk 0 MStatus.pending).progress ∧
    updateModuleProgress (ProgressModule.mk 0 MStatus.pending) (-10) =
      Except.ok (ProgressModule.mk 0 MStatus.inProgress) := by
  constructor
  · norm_num
  · simp only [updateModuleProgress]
    norm_num

/-- C9 amended: submitted values are clamped to [0,100] before storage
(150 stores 100, −10 against stored 0 stores 0); a request with
newProgress < currentProgress is rejected with a validation failure, but
only when currentProgress > 0 (at stored 0 a lower request is accepted,
storing the clamped 0); across all request sequences the stored progress
never decreases, and 100 is terminal. -/
theorem module_progress_update_amended (m : ProgressModule) (req : ℚ)
    (reqs : List ℚ) :
    (∀ m2, updateModuleProgress m req = Except.ok m2 →
      m2.progress = min 100 (max 0 req)) ∧
    updateModuleProgress (ProgressModule.mk 0 MStatus.pending) 150 =
      Except.ok (ProgressModule.mk 100 MStatus.completed) ∧
    updateModuleProgress (ProgressModule.mk 0 MStatus.pending) (-10) =
      Except.ok (ProgressModule.mk 0 MStatus.inProgress) ∧
    (m.progress > 0 → req < m.progress →
      updateModuleProgress m req = Except.error "Cannot decrease progress") ∧
    (0 ≤ m.progress → m.progress ≤ 100 →
      m.progress ≤ (applyProgressRequests m reqs).progress) ∧
    (m.progress = 100 → (applyProgressRequests m reqs).progress = 100) := by
  refine ⟨?_, ?_, ?_, ?_, ?_, ?_⟩
  · intro m2 h
    exact updateModuleProgress_ok_progress m req m2 h
  · simp only [updateModuleProgress]
    norm_num
  · simp only [updateModuleProgress]
    norm_num
  · intro hpos hlt
    simp only [updateModuleProgress, if_pos (And.intro hlt hpos)]
  · intro h0 h100
    exact (applyProgressRequests_mono reqs m h0 h100).1
  · intro h
    exact applyProgressRequests_terminal reqs m h

/-- Witness for `module_progress_update_amended` at stored progress 50. -/
theorem module_progress_update_amended_witness :
    ((50 : ℚ) > 0 ∧ (30 : ℚ) < 50 ∧
      updateModuleProgress (ProgressModule.mk 50 MStatus.inProgress) 30 =
        Except.error "Cannot decrease progress") ∧
    ((0 : ℚ) ≤ 50 ∧ (50 : ℚ) ≤ 100 ∧
      (50 : ℚ) ≤ (applyProgressRequests (ProgressModule.mk 50 MStatus.inProgress)
        [70, 30, 90]).progress) :=
  ⟨⟨by norm_num, by norm_num,
      (module_progress_update_amended (ProgressModule.mk 50 MStatus.inProgress) 30
        [70, 30, 90]).2.2.2.1 (by norm_num) (by norm_num)⟩,
    ⟨by norm_num, by norm_num,
      (module_progress_update_amended (ProgressModule.mk 50 MStatus.inProgress) 30
        [70, 30, 90]).2.2.2.2.1 (by norm_num) (by norm_num)⟩⟩

/-- Membership is preserved by the insertion step. -/
theorem mem_insertByCreatedDesc (x u : DUpdate) (l : List DUpdate) :
    x ∈ insertByCreatedDesc u l ↔ x = u ∨ x ∈ l := by
  induction l with
  | nil => simp [insertByCreatedDesc]
  | cons v rest ih =>
    by_cases hc : v.createdAt ≤ u.createdAt
    · simp [insertByCreatedDesc, hc]
    · simp only [insertByCreatedDesc, if_neg hc, List.mem_cons, ih]
      tauto

/-- Membership is preserved by the newest-first sort. -/
theorem mem_sortByCreatedDesc (x : DUpdate) (l : List DUpdate) :
    x ∈ sortByCreatedDesc l ↔ x ∈ l := by
  induction l with
  | nil => simp [sortByCreatedDesc]
  | cons v rest ih =>
    simp only [sortByCreatedDesc, List.foldr_cons] at *
    rw [mem_insertByCreatedDesc, ih, List.mem_cons]

/-- Mapped sums are preserved by the insertion step. -/
theorem sum_insertByCreatedDesc (f : DUpdate → ℚ) (u : DUpdate)
    (l : List DUpdate) :
    ((insertByCreatedDesc u l).map f).sum = f u + (l.map f).sum := by
  induction l with
  | nil => simp [insertByCreatedDesc]
  | cons v rest ih =>
    by_cases hc : v.createdAt ≤ u.createdAt
    · simp [insertByCreatedDesc, hc]
    · simp only [insertByCreatedDesc, if_neg hc, List.map_cons, List.sum_cons, ih]
      ring

/-- Mapped sums are preserved by the newest-first sort. -/
theorem sum_sortByCreatedDesc (f : DUpdate → ℚ) (l : List DUpdate) :
    ((sortByCreatedDesc l).map f).sum = (l.map f).sum := by
  induction l with
  | nil => rfl
  | cons v rest ih =>
    simp only [sortByCreatedDesc, List.foldr_cons] at *
    rw [sum_insertByCreatedDesc, ih, List.map_cons, List.sum_cons]

/-- The head of the newest-first sort is an update of the list with maximal
`createdAt`. -/
theorem head_sortByCreatedDesc (l : List DUpdate) (w : DUpdate)
    (t : List DUpdate) (hs : sortByCreatedDesc l = w :: t) :
    w ∈ l ∧ ∀ v ∈ l, v.createdAt ≤ w.createdAt := by
  induction l generalizing w t with
  | nil => simp [sortByCreatedDesc] at hs
  | cons x l2 ih =>
    have hs2 : insertByCreatedDesc x (sortByCreatedDesc l2) = w :: t := hs
    cases hrec : sortByCreatedDesc l2 with
    | nil =>
      rw [hrec] at hs2
      simp only [insertByCreatedDesc, List.cons.injEq] at hs2
      obtain ⟨hw, _⟩ := hs2
      subst hw
      refine ⟨List.mem_cons_self _ _, ?_⟩
      intro v hv
      rcases List.mem_cons.mp hv with hvx | hvl
      · rw [hvx]
      · exact absurd ((mem_sortByCreatedDesc v l2).mpr hvl) (by rw [hrec]; simp)
    | cons y t2 =>
      obtain ⟨hy, hmax⟩ := ih y t2 hrec
      rw [hrec] at hs2
      by_cases hc : y.createdAt ≤ x.createdAt
      · simp only [insertByCreatedDesc, if_pos hc, List.cons.injEq] at hs2
        obtain ⟨hw, _⟩ := hs2
        subst hw
        refine ⟨List.mem_cons_self _ _, ?_⟩
        intro v hv
        rcases List.mem_cons.mp hv with hvx | hvl
        · rw [hvx]
        · exact le_trans (hmax v hvl) hc
      · simp only [insertByCreatedDesc, if_neg hc, List.cons.injEq] at hs2
        obtain ⟨hw, _⟩ := hs2
        subst hw
        refine ⟨List.mem_cons_of_mem _ hy, ?_⟩
        intro v hv
        rcases List.mem_cons.mp hv with hvx | hvl
        · rw [hvx]
          exact le_of_lt (lt_of_not_le hc)
        · exact hmax v hvl

/-- A nonempty list has a nonempty newest-first sort. -/
theorem sortByCreatedDesc_ne_nil (l : List DUpdate) (h : l ≠ []) :
    sortByCreatedDesc l ≠ [] := by
  cases l with
  | nil => exact absurd rfl h
  | cons x l2 =>
    intro hnil
    have hx : x ∈ sortByCreatedDesc (x :: l2) :=
      (mem_sortByCreatedDesc x (x :: l2)).mpr (List.mem_cons_self _ _)
    rw [hnil] at hx
    exact absurd hx (List.not_mem_nil x)

/-- The recomputed module progress is the head update's percentage. -/
theorem recomputeModule_progress (updates : List DUpdate) (m : ModuleState)
    (now : ℚ) (w : DUpdate) (t : List DUpdate)
    (hs : sortByCreatedDesc updates = w :: t) :
    (recomputeModule updates m now).progress = w.progressPercentage := by
  unfold recomputeModule
  rw [hs]
  dsimp only
  split
  · rfl
  · split <;> rfl

/-- The recomputed module actualTime is the sum of all hours worked. -/
theorem recomputeModule_actualTime (updates : List DUpdate) (m : ModuleState)
    (now : ℚ) (w : DUpdate) (t : List DUpdate)
    (hs : sortByCreatedDesc updates = w :: t) :
    (recomputeModule updates m now).actualTime =
      (updates.map (fun u => u.hoursWorked)).sum := by
  have hsum : ((w :: t).map (fun u => u.hoursWorked)).sum =
      (updates.map (fun u => u.hoursWorked)).sum := by
    rw [← hs, sum_sortByCreatedDesc]
  unfold recomputeModule
  rw [hs]
  dsimp only
  split
  · exact hsum
  · split
    · exact hsum
    · exact hsum

/-- Completion transition of the recompute hook. -/
theorem recomputeModule_completed (updates : List DUpdate) (m : ModuleState)
    (now : ℚ) (w : DUpdate) (t : List DUpdate)
    (hs : sortByCreatedDesc updates = w :: t)
    (h100 : w.progressPercentage = 100) (hst : m.status ≠ MStatus.completed) :
    (recomputeModule updates m now).status = MStatus.completed ∧
    (recomputeModule updates m now).endDate = some now := by
  unfold recomputeModule
  rw [hs]
  dsimp only
  rw [if_pos (And.intro h100 hst)]
  exact ⟨rfl, rfl⟩

/-- Start transition of the recompute hook. -/
theorem recomputeModule_started (updates : List DUpdate) (m : ModuleState)
    (now : ℚ) (w : DUpdate) (t : List DUpdate)
    (hs : sortByCreatedDesc updates = w :: t)
    (hn100 : w.progressPercentage ≠ 100) (hpos : w.progressPercentage > 0)
    (hpend : m.status = MStatus.pending) :
    (recomputeModule updates m now).status = MStatus.inProgress ∧
    (recomputeModule updates m now).startDate = some (m.startDate.getD now) := by
  unfold recomputeModule
  rw [hs]
  dsimp only
  rw [if_neg (fun hand => hn100 hand.1), if_pos (And.intro hpos hpend)]
  exact ⟨rfl, rfl⟩

/-- C6: after a daily update is persisted, the module aggregator recomputes
from the complete set of the module's daily updates ordered newest-first:
progress is the most recently created update's percentage, actualTime is
the sum of all hours worked, the status becomes completed (with endDate set)
when the latest progress is 100 and the module was not completed, it becomes
in_progress (with startDate set if unset) when the latest progress is
positive but not 100 and the module was pending, and with zero updates the
module is untouched. -/
theorem module_recompute_correct (updates : List DUpdate) (m : ModuleState)
    (now : ℚ) (hne : updates ≠ []) :
    recomputeModule [] m now = m ∧
    (recomputeModule updates m now).actualTime =
      (updates.map (fun u => u.hoursWorked)).sum ∧
    ∃ w ∈ updates,
      (∀ v ∈ updates, v.createdAt ≤ w.createdAt) ∧
      (recomputeModule updates m now).progress = w.progressPercentage ∧
      (w.progressPercentage = 100 → m.status ≠ MStatus.completed →
        (recomputeModule updates m now).status = MStatus.completed ∧
        (recomputeModule updates m now).endDate = some now) ∧
      (w.progressPercentage ≠ 100 → w.progressPercentage > 0 →
        m.status = MStatus.pending →
        (recomputeModule updates m now).status = MStatus.inProgress ∧
        (recomputeModule updates m now).startDate =
          some (m.startDate.getD now)) := by
  cases hs : sortByCreatedDesc updates with
  | nil => exact absurd hs (sortByCreatedDesc_ne_nil updates hne)
  | cons w t =>
    obtain ⟨hwmem, hwmax⟩ := head_sortByCreatedDesc updates w t hs
    refine ⟨rfl, recomputeModule_actualTime updates m now w t hs, w, hwmem,
      hwmax, recomputeModule_progress updates m now w t hs, ?_, ?_⟩
    · intro h100 hst
      exact recomputeModule_completed updates m now w t hs h100 hst
    · intro hn100 hpos hpend
      exact recomputeModule_started updates m now w t hs hn100 hpos hpend

/-- Witness for `module_recompute_correct`: two updates, the newer one at
80 percent and 3 hours. -/
theorem module_recompute_correct_witness :
    ([DUpdate.mk 1 5 40 10, DUpdate.mk 1 3 80 20] ≠ ([] : List DUpdate)) ∧
    (recomputeModule [DUpdate.mk 1 5 40 10, DUpdate.mk 1 3 80 20]
        (ModuleState.mk 0 12 0 MStatus.pending none none) 7).actualTime =
      (([DUpdate.mk 1 5 40 10, DUpdate.mk 1 3 80 20]).map
        (fun u => u.hoursWorked)).sum := by
  have h := module_recompute_correct [DUpdate.mk 1 5 40 10, DUpdate.mk 1 3 80 20]
    (ModuleState.mk 0 12 0 MStatus.pending none none) 7 (by simp)
  exact ⟨by simp, h.2.1⟩

/-- The method `addProjectToHistory` appends the entry to the history. -/
theorem addProjectToHistory_history (s : UserStatsState) (e : HistoryEntry)
    (monthKey : String) :
    (addProjectToHistory s e monthKey).projectHistory =
      s.projectHistory ++ [e] := by
  unfold addProjectToHistory
  by_cases hr : e.role = Role.lead
  · simp only [if_pos hr]
    split <;> rfl
  · simp only [if_neg hr]
    split <;> rfl

/-- The method `addProjectToHistory` never touches `totalProjects`. -/
theorem addProjectToHistory_totalProjects (s : UserStatsState)
    (e : HistoryEntry) (monthKey : String) :
    (addProjectToHistory s e monthKey).totalProjects = s.totalProjects := by
  unfold addProjectToHistory
  by_cases hr : e.role = Role.lead
  · simp only [if_pos hr]
    split <;> rfl
  · simp only [if_neg hr]
    split <;> rfl

/-- The method `addProjectToHistory` adds the entry points to `totalPoints`. -/
theorem addProjectToHistory_totalPoints (s : UserStatsState) (e : HistoryEntry)
    (monthKey : String) :
    (addProjectToHistory s e monthKey).totalPoints =
      s.totalPoints + e.pointsEarned := by
  unfold addProjectToHistory
  by_cases hr : e.role = Role.lead
  · simp only [if_pos hr]
    split <;> rfl
  · simp only [if_neg hr]
    split <;> rfl

/-- Lookup after a store write. -/
theorem findStats_setStats (st : StatsStore) (v : Nat) (x : UserStatsState)
    (u : Nat) :
    findStats (setStats st v x) u = if v = u then some x else findStats st u := by
  induction st with
  | nil => by_cases h : v = u <;> simp [setStats, findStats, h]
  | cons p rest ih =>
    obtain ⟨w, sw⟩ := p
    by_cases hwv : w = v
    · subst hwv
      simp only [setStats, if_pos rfl]
      by_cases hwu : w = u <;> simp [findStats, hwu]
    · simp only [setStats, if_neg hwv]
      by_cases hwu : w = u
      · subst hwu
        have hvu : ¬v = w := fun h => hwv h.symm
        simp [findStats, hvu]
      · simp [findStats, hwu, ih]

/-- Lookup after crediting a user. -/
theorem findStats_creditUser (st : StatsStore) (v : Nat) (e : HistoryEntry)
    (monthKey : String) (u : Nat) :
    findStats (creditUser st v e monthKey) u =
      if v = u then
        some (addProjectToHistory ((findStats st v).getD defaultUserStats) e
          monthKey)
      else findStats st u := by
  unfold creditUser
  exact findStats_setStats st v _ u

/-- Crediting appends to exactly the credited user's history. -/
theorem statHistory_creditUser (st : StatsStore) (v : Nat) (e : HistoryEntry)
    (monthKey : String) (u : Nat) :
    statHistory (creditUser st v e monthKey) u =
      if v = u then statHistory st u ++ [e] else statHistory st u := by
  unfold statHistory
  rw [findStats_creditUser]
  by_cases h : v = u
  · subst h
    rw [if_pos rfl, if_pos rfl, Option.getD_some, addProjectToHistory_history]
  · rw [if_neg h, if_neg h]

/-- A member of a store write came from the write or from the store. -/
theorem mem_setStats (st : StatsStore) (u : Nat) (x : UserStatsState)
    (q : Nat × UserStatsState) (h : q ∈ setStats st u x) :
    q = (u, x) ∨ q ∈ st := by
  induction st with
  | nil =>
    simp only [setStats, List.mem_singleton] at h
    exact Or.inl h
  | cons p rest ih =>
    obtain ⟨w, sw⟩ := p
    simp only [setStats] at h
    by_cases hwu : w = u
    · rw [if_pos hwu] at h
      subst hwu
      rcases List.mem_cons.mp h with h1 | h1
      · exact Or.inl h1
      · exact Or.inr (List.mem_cons_of_mem _ h1)
    · rw [if_neg hwu] at h
      rcases List.mem_cons.mp h with h1 | h1
      · exact Or.inr (List.mem_cons.mpr (Or.inl h1))
      · rcases ih h1 with h2 | h2
        · exact Or.inl h2
        · exact Or.inr (List.mem_cons_of_mem _ h2)

/-- A successful lookup exhibits a store member. -/
theorem findStats_mem (st : StatsStore) (u : Nat) (y : UserStatsState)
    (h : findStats st u = some y) : (u, y) ∈ st := by
  induction st with
  | nil => simp [findStats] at h
  | cons p rest ih =>
    obtain ⟨w, sw⟩ := p
    simp only [findStats] at h
    by_cases hwu : w = u
    · rw [if_pos hwu] at h
      subst hwu
      injection h with h2
      rw [← h2]
      exact List.mem_cons_self _ _
    · rw [if_neg hwu] at h
      exact List.mem_cons_of_mem _ (ih h)

/-- Keys after one `userHours` accumulation step: an existing key is
updated in place, a new key is appended. -/
theorem addHours_keys (acc : List (Nat × ℚ)) (u : Nat) (h : ℚ) :
    (addHours acc u h).map Prod.fst =
      if u ∈ acc.map Prod.fst then acc.map Prod.fst
      else acc.map Prod.fst ++ [u] := by
  induction acc with
  | nil => simp [addHours]
  | cons p rest ih =>
    obtain ⟨v, hv⟩ := p
    by_cases hvu : v = u
    · subst hvu
      simp [addHours]
    · have hne : ¬u = v := fun h2 => hvu h2.symm
      simp only [addHours, if_neg hvu, List.map_cons, ih, List.mem_cons]
      by_cases hmem : u ∈ rest.map Prod.fst
      · simp [hmem, hne]
      · simp [hmem, hne]

/-- One `userHours` accumulation step preserves key uniqueness. -/
theorem addHours_nodup (acc : List (Nat × ℚ)) (u : Nat) (h : ℚ)
    (hnd : (acc.map Prod.fst).Nodup) :
    ((addHours acc u h).map Prod.fst).Nodup := by
  rw [addHours_keys]
  by_cases hmem : u ∈ acc.map Prod.fst
  · rwa [if_pos hmem]
  · rw [if_neg hmem]
    refine List.Nodup.append hnd (List.nodup_singleton u) ?_
    intro a ha hau
    rw [List.mem_singleton.mp hau] at ha
    exact hmem ha

/-- The per-user hour aggregation has pairwise distinct user keys. -/
theorem aggregateHours_nodup (updates : List DUpdate) :
    ((aggregateHours updates).map Prod.fst).Nodup := by
  have hgen : ∀ (l : List DUpdate) (acc : List (Nat × ℚ)),
      (acc.map Prod.fst).Nodup →
      ((l.foldl (fun a up => addHours a up.user up.hoursWorked) acc).map
        Prod.fst).Nodup := by
    intro l
    induction l with
    | nil => intro acc hacc; exact hacc
    | cons up rest ih =>
      intro acc hacc
      exact ih _ (addHours_nodup acc up.user up.hoursWorked hacc)
  exact hgen updates [] (by simp)

/-- A distribution-loop step does not change other users' records. -/
theorem findStats_distributeStep_ne (c : Option ℚ) (tU uP : ℚ) (mk2 : String)
    (st : StatsStore) (q : Nat × ℚ) (u : Nat) (hq : q.1 ≠ u) :
    findStats (distributeStep c tU uP mk2 st q) u = findStats st u := by
  unfold distributeStep
  by_cases ht : tU > 0
  · rw [if_pos ht, findStats_creditUser, if_neg hq]
  · rw [if_neg ht]

/-- The distribution loop does not change users outside its key list. -/
theorem foldl_distributeStep_not_mem (c : Option ℚ) (tU uP : ℚ) (mk2 : String)
    (l : List (Nat × ℚ)) (u : Nat) :
    ∀ st : StatsStore, u ∉ l.map Prod.fst →
      findStats (l.foldl (distributeStep c tU uP mk2) st) u = findStats st u := by
  induction l with
  | nil => intro st _; rfl
  | cons q rest ih =>
    intro st hu
    simp only [List.map_cons, List.mem_cons, not_or] at hu
    rw [List.foldl_cons, ih _ hu.2,
      findStats_distributeStep_ne c tU uP mk2 st q u (fun h2 => hu.1 h2.symm)]

/-- The distribution loop credits a listed user exactly its one member
share. -/
theorem foldl_distributeStep_mem (c : Option ℚ) (tU uP : ℚ) (mk2 : String)
    (l : List (Nat × ℚ)) (u : Nat) (h : ℚ) (htU : tU > 0) :
    ∀ st : StatsStore, (u, h) ∈ l → (l.map Prod.fst).Nodup →
      findStats (l.foldl (distributeStep c tU uP mk2) st) u =
        some (addProjectToHistory ((findStats st u).getD defaultUserStats)
          (memberShareEntry c tU uP (u, h)) mk2) := by
  induction l with
  | nil => intro st hmem _; simp at hmem
  | cons q rest ih =>
    intro st hmem hnd
    obtain ⟨v, hv⟩ := q
    rcases List.mem_cons.mp hmem with heq | hrest
    · injection heq with hu hh
      subst hu
      subst hh
      rw [List.map_cons] at hnd
      have hnotin : u ∉ rest.map Prod.fst := (List.nodup_cons.mp hnd).1
      rw [List.foldl_cons, foldl_distributeStep_not_mem c tU uP mk2 rest u _ hnotin]
      unfold distributeStep
      rw [if_pos htU, findStats_creditUser, if_pos rfl]
    · rw [List.map_cons] at hnd
      have hvne : v ≠ u := by
        intro h2
        subst h2
        have hin : v ∈ rest.map Prod.fst :=
          List.mem_map_of_mem Prod.fst hrest
        exact (List.nodup_cons.mp hnd).1 hin
      rw [List.foldl_cons,
        ih _ hrest (List.nodup_cons.mp hnd).2,
        findStats_distributeStep_ne c tU uP mk2 st (v, hv) u hvne]

/-- The distribution loop only ever appends to history lists. -/
theorem foldl_distributeStep_history (c : Option ℚ) (tU uP : ℚ) (mk2 : String)
    (l : List (Nat × ℚ)) (u : Nat) (e : HistoryEntry) :
    ∀ st : StatsStore, e ∈ statHistory st u →
      e ∈ statHistory (l.foldl (distributeStep c tU uP mk2) st) u := by
  induction l with
  | nil => intro st he; exact he
  | cons q rest ih =>
    intro st he
    rw [List.foldl_cons]
    apply ih
    unfold distributeStep
    by_cases ht : tU > 0
    · rw [if_pos ht, statHistory_creditUser]
      by_cases hq : q.1 = u
      · rw [if_pos hq]
        exact List.mem_append_left _ he
      · rw [if_neg hq]
        exact he
    · rw [if_neg ht]
      exact he

/-- Unfolding of a first-time points distribution. -/
theorem calculateAndDistributePoints_eq (s : DistState) (updates : List DUpdate)
    (monthKey : String) (hpd : s.project.pointsDistributed = false) :
    calculateAndDistributePoints s updates monthKey =
      DistState.mk { s.project with pointsDistributed := true }
        ((aggregateHours updates).foldl
          (distributeStep s.project.completedAt
            (((aggregateHours updates).map (fun q => q.2)).sum)
            (projectTotalPoints s.project * 0.6) monthKey)
          (creditUser s.stats s.project.assignedLead
            (HistoryEntry.mk Role.lead
              ((jsRound (projectTotalPoints s.project * 0.4) : ℤ) : ℚ)
              s.project.totalActualHours s.project.completedAt) monthKey)) := by
  unfold calculateAndDistributePoints
  rw [hpd]
  rfl

/-- Points distribution never changes the project's progress, status, dates
or hour totals, only the `pointsDistributed` flag and the stats store. -/
theorem distribute_project_preserved (s : DistState) (updates : List DUpdate)
    (monthKey : String) :
    (calculateAndDistributePoints s updates monthKey).project.progress =
      s.project.progress ∧
    (calculateAndDistributePoints s updates monthKey).project.status =
      s.project.status ∧
    (calculateAndDistributePoints s updates monthKey).project.completedAt =
      s.project.completedAt ∧
    (calculateAndDistributePoints s updates monthKey).project.totalEstimatedHours =
      s.project.totalEstimatedHours ∧
    (calculateAndDistributePoints s updates monthKey).project.totalActualHours =
      s.project.totalActualHours := by
  unfold calculateAndDistributePoints
  split
  · exact ⟨rfl, rfl, rfl, rfl, rfl⟩
  · exact ⟨rfl, rfl, rfl, rfl, rfl⟩

/-- C1: on a first-time distribution the assigned lead's statistics are
credited `round(totalPoints * 0.4)` with role lead; each contributing user
with summed hours h over all of the project's daily updates is credited
`round((h / totalHours) * (totalPoints * 0.6))` with role member; a user
with zero recorded hours receives zero points; and with a member pool of 60
and user hours 60 and 40 the shares are 36 and 24. -/
theorem points_distribution_correct (s : DistState) (updates : List DUpdate)
    (monthKey : String) (hpd : s.project.pointsDistributed = false) :
    (HistoryEntry.mk Role.lead
        ((jsRound (projectTotalPoints s.project * 0.4) : ℤ) : ℚ)
        s.project.totalActualHours s.project.completedAt) ∈
      statHistory (calculateAndDistributePoints s updates monthKey).stats
        s.project.assignedLead ∧
    (∀ u : Nat, ∀ h : ℚ, (u, h) ∈ aggregateHours updates →
      ((aggregateHours updates).map (fun q => q.2)).sum > 0 →
      u ≠ s.project.assignedLead →
      findStats (calculateAndDistributePoints s updates monthKey).stats u =
        some (addProjectToHistory
          ((findStats s.stats u).getD defaultUserStats)
          (HistoryEntry.mk Role.member
            ((jsRound (h / ((aggregateHours updates).map (fun q => q.2)).sum *
              (projectTotalPoints s.project * 0.6)) : ℤ) : ℚ)
            h s.project.completedAt)
          monthKey)) ∧
    (∀ T : ℚ, jsRound (0 / T * (projectTotalPoints s.project * 0.6)) = 0) ∧
    ((findStats (calculateAndDistributePoints (DistState.mk exampleProject [])
        exampleUpdates "2025-01").stats 1).getD defaultUserStats).totalPoints
      = 36 ∧
    ((findStats (calculateAndDistributePoints (DistState.mk exampleProject [])
        exampleUpdates "2025-01").stats 2).getD defaultUserStats).totalPoints
      = 24 := by
  rw [calculateAndDistributePoints_eq s updates monthKey hpd]
  refine ⟨?_, ?_, ?_, ?_, ?_⟩
  · apply foldl_distributeStep_history
    rw [statHistory_creditUser, if_pos rfl]
    exact List.mem_append_right _ (List.mem_singleton_self _)
  · intro u h hmem htU hne
    rw [foldl_distributeStep_mem s.project.completedAt
        (((aggregateHours updates).map (fun q => q.2)).sum)
        (projectTotalPoints s.project * 0.6) monthKey
        (aggregateHours updates) u h htU _ hmem (aggregateHours_nodup updates),
      findStats_creditUser, if_neg (fun h2 => hne h2.symm)]
    rfl
  · intro T
    simp [jsRound]
    norm_num
  · norm_num [calculateAndDistributePoints, projectTotalPoints,
      efficiencyMultiplier, deadlineMultiplier, aggregateHours, addHours,
      distributeStep, creditUser, findStats, setStats, addProjectToHistory,
      memberShareEntry, defaultUserStats, exampleProject, exampleUpdates,
      List.find?, jsRound]
    rfl
  · norm_num [calculateAndDistributePoints, projectTotalPoints,
      efficiencyMultiplier, deadlineMultiplier, aggregateHours, addHours,
      distributeStep, creditUser, findStats, setStats, addProjectToHistory,
      memberShareEntry, defaultUserStats, exampleProject, exampleUpdates,
      List.find?, jsRound]
    rfl

/-- Witness for `points_distribution_correct` on the worked example. -/
theorem points_distribution_correct_witness :
    exampleProject.pointsDistributed = false ∧
    (HistoryEntry.mk Role.lead
        ((jsRound (projectTotalPoints exampleProject * 0.4) : ℤ) : ℚ)
        exampleProject.totalActualHours exampleProject.completedAt) ∈
      statHistory (calculateAndDistributePoints (DistState.mk exampleProject [])
        exampleUpdates "2025-01").stats exampleProject.assignedLead :=
  ⟨rfl, (points_distribution_correct (DistState.mk exampleProject [])
    exampleUpdates "2025-01" rfl).1⟩

/-- C2: distribution is one-shot: invoked with `pointsDistributed` already
true it modifies nothing; a successful run ends with
`pointsDistributed = true`; and a later progress recomputation on a project
with `pointsDistributed = true` leaves every UserStats record unchanged. -/
theorem points_one_shot (s : DistState) (updates : List DUpdate)
    (monthKey : String) (modules : List ModuleState) (now : ℚ) :
    (s.project.pointsDistributed = true →
      calculateAndDistributePoints s updates monthKey = s) ∧
    (calculateAndDistributePoints s updates monthKey).project.pointsDistributed
      = true ∧
    (s.project.pointsDistributed = true →
      (calculateProgress s modules now updates monthKey).stats = s.stats) := by
  refine ⟨?_, ?_, ?_⟩
  · intro h
    unfold calculateAndDistributePoints
    rw [h, if_pos rfl]
  · by_cases h : s.project.pointsDistributed = true
    · unfold calculateAndDistributePoints
      rw [h, if_pos rfl]
      exact h
    · have hf : s.project.pointsDistributed = false := by
        revert h
        cases s.project.pointsDistributed <;> simp
      rw [calculateAndDistributePoints_eq s updates monthKey hf]
  · intro h
    unfold calculateProgress
    split
    · rfl
    · dsimp only
      split
      · split
        · next hpd2 =>
            have hx : s.project.pointsDistributed = false := hpd2
            rw [h] at hx
            cases hx
        · rfl
      · rfl

/-- Witness for `points_one_shot`: a project whose points are already
distributed. -/
theorem points_one_shot_witness :
    (ProjectState.mk 0 100 PStatus.completed (some 0) (some 0) 100 100 100
        true).pointsDistributed = true ∧
    calculateAndDistributePoints
      (DistState.mk
        (ProjectState.mk 0 100 PStatus.completed (some 0) (some 0) 100 100 100
          true) []) exampleUpdates "2025-01" =
      DistState.mk
        (ProjectState.mk 0 100 PStatus.completed (some 0) (some 0) 100 100 100
          true) [] :=
  ⟨rfl, (points_one_shot
    (DistState.mk
      (ProjectState.mk 0 100 PStatus.completed (some 0) (some 0) 100 100 100
        true) []) exampleUpdates "2025-01" [] 0).1 rfl⟩

/-- Recomputation over an empty module set only zeroes the progress. -/
theorem calculateProgress_nil (s : DistState) (now : ℚ)
    (updates : List DUpdate) (monthKey : String) :
    calculateProgress s [] now updates monthKey =
      DistState.mk { s.project with progress := 0 } s.stats := by
  unfold calculateProgress
  rw [if_pos rfl]

/-- Over a nonempty module set, the recomputed progress and hour totals
are exactly the aggregation of the modules. -/
theorem calculateProgress_fields (s : DistState) (modules : List ModuleState)
    (now : ℚ) (updates : List DUpdate) (monthKey : String)
    (hm : modules ≠ []) :
    (calculateProgress s modules now updates monthKey).project.progress =
      ((jsRound ((modules.map (fun md => md.progress)).sum /
        (modules.length : ℚ))) : ℚ) ∧
    (calculateProgress s modules now updates monthKey).project.totalEstimatedHours =
      (modules.map (fun md => md.estimatedTime)).sum ∧
    (calculateProgress s modules now updates monthKey).project.totalActualHours =
      (modules.map (fun md => md.actualTime)).sum := by
  unfold calculateProgress
  rw [if_neg hm]
  dsimp only
  refine ⟨?_, ?_, ?_⟩
  · split
    · split
      · rw [(distribute_project_preserved _ updates monthKey).1]
        rfl
      · rfl
    · rfl
  · split
    · split
      · rw [(distribute_project_preserved _ updates monthKey).2.2.2.1]
        rfl
      · rfl
    · rfl
  · split
    · split
      · rw [(distribute_project_preserved _ updates monthKey).2.2.2.2]
        rfl
      · rfl
    · rfl

/-- Completion detection of the recomputation. -/
theorem calculateProgress_completion (s : DistState)
    (modules : List ModuleState) (now : ℚ) (updates : List DUpdate)
    (monthKey : String) (hm : modules ≠ [])
    (h100 : (projectAggregate s.project modules).progress = 100)
    (hst : s.project.status ≠ PStatus.completed) :
    (calculateProgress s modules now updates monthKey).project.status =
      PStatus.completed ∧
    (calculateProgress s modules now updates monthKey).project.completedAt =
      some now ∧
    (s.project.pointsDistributed = false →
      calculateProgress s modules now updates monthKey =
        calculateAndDistributePoints
          (DistState.mk
            { projectAggregate s.project modules with
              status := PStatus.completed, completedAt := some now }
            s.stats) updates monthKey) := by
  unfold calculateProgress
  rw [if_neg hm]
  dsimp only
  have hst2 : (projectAggregate s.project modules).status ≠ PStatus.completed := hst
  rw [if_pos (And.intro h100 hst2)]
  split
  · refine ⟨?_, ?_, ?_⟩
    · rw [(distribute_project_preserved _ updates monthKey).2.1]
    · rw [(distribute_project_preserved _ updates monthKey).2.2.1]
    · intro _
      rfl
  · next hpd2 =>
      refine ⟨rfl, rfl, ?_⟩
      intro hpd
      exact absurd hpd hpd2

/-- C7: with zero modules the recomputation sets progress to 0 and leaves
status and stats alone; with modules it sets progress to the rounded mean
of module progresses (progresses 50, 75, 25 give 50) and the hour totals
to the module sums; and at computed progress 100 on a not-yet-completed
project it marks the project completed at `now` and, if
`pointsDistributed` is false, invokes the distribution synchronously. -/
theorem project_progress_recompute (s : DistState) (modules : List ModuleState)
    (now : ℚ) (updates : List DUpdate) (monthKey : String) :
    ((calculateProgress s [] now updates monthKey).project.progress = 0 ∧
      (calculateProgress s [] now updates monthKey).project.status =
        s.project.status ∧
      (calculateProgress s [] now updates monthKey).stats = s.stats) ∧
    (modules ≠ [] →
      (calculateProgress s modules now updates monthKey).project.progress =
        ((jsRound ((modules.map (fun md => md.progress)).sum /
          (modules.length : ℚ))) : ℚ) ∧
      (calculateProgress s modules now updates
          monthKey).project.totalEstimatedHours =
        (modules.map (fun md => md.estimatedTime)).sum ∧
      (calculateProgress s modules now updates
          monthKey).project.totalActualHours =
        (modules.map (fun md => md.actualTime)).sum) ∧
    (modules ≠ [] →
      (projectAggregate s.project modules).progress = 100 →
      s.project.status ≠ PStatus.completed →
      (calculateProgress s modules now updates monthKey).project.status =
        PStatus.completed ∧
      (calculateProgress s modules now updates monthKey).project.completedAt =
        some now ∧
      (s.project.pointsDistributed = false →
        calculateProgress s modules now updates monthKey =
          calculateAndDistributePoints
            (DistState.mk
              { projectAggregate s.project modules with
                status := PStatus.completed, completedAt := some now }
              s.stats) updates monthKey)) ∧
    (calculateProgress (DistState.mk exampleProject []) exampleModules 0 []
      "2025-01").project.progress = 50 := by
  refine ⟨?_, ?_, ?_, ?_⟩
  · rw [calculateProgress_nil]
    exact ⟨rfl, rfl, rfl⟩
  · intro hm
    exact calculateProgress_fields s modules now updates monthKey hm
  · intro hm h100 hst
    exact calculateProgress_completion s modules now updates monthKey hm h100 hst
  · have hm : exampleModules ≠ [] := by simp [exampleModules]
    rw [(calculateProgress_fields (DistState.mk exampleProject [])
      exampleModules 0 [] "2025-01" hm).1]
    norm_num [exampleModules, jsRound]

/-- Witness for `project_progress_recompute` on the example modules. -/
theorem project_progress_recompute_witness :
    exampleModules ≠ [] ∧
    (calculateProgress (DistState.mk exampleProject []) exampleModules 0 []
        "2025-01").project.totalEstimatedHours =
      (exampleModules.map (fun md => md.estimatedTime)).sum :=
  ⟨by simp [exampleModules],
    ((project_progress_recompute (DistState.mk exampleProject [])
      exampleModules 0 [] "2025-01").2.1 (by simp [exampleModules])).2.1⟩

/-- C8: recomputing project progress twice in a row from the same module
set yields the same progress and hour totals as recomputing once, for any
module set (including the empty one) and any intervening timestamps. -/
theorem project_progress_idempotent (s : DistState)
    (modules : List ModuleState) (now now2 : ℚ)
    (updates updates2 : List DUpdate) (monthKey monthKey2 : String) :
    (calculateProgress (calculateProgress s modules now updates monthKey)
        modules now2 updates2 monthKey2).project.progress =
      (calculateProgress s modules now updates monthKey).project.progress ∧
    (calculateProgress (calculateProgress s modules now updates monthKey)
        modules now2 updates2 monthKey2).project.totalEstimatedHours =
      (calculateProgress s modules now updates
        monthKey).project.totalEstimatedHours ∧
    (calculateProgress (calculateProgress s modules now updates monthKey)
        modules now2 updates2 monthKey2).project.totalActualHours =
      (calculateProgress s modules now updates
        monthKey).project.totalActualHours := by
  by_cases hm : modules = []
  · subst hm
    rw [calculateProgress_nil s now updates monthKey,
      calculateProgress_nil _ now2 updates2 monthKey2]
    exact ⟨rfl, rfl, rfl⟩
  · obtain ⟨h1, h2, h3⟩ :=
      calculateProgress_fields s modules now updates monthKey hm
    obtain ⟨g1, g2, g3⟩ :=
      calculateProgress_fields (calculateProgress s modules now updates monthKey)
        modules now2 updates2 monthKey2 hm
    exact ⟨g1.trans h1.symm, g2.trans h2.symm, g3.trans h3.symm⟩

/-- Crediting a user preserves the all-totalProjects-zero invariant. -/
theorem creditUser_totalProjects_inv (st : StatsStore) (v : Nat)
    (e : HistoryEntry) (monthKey : String)
    (hinv : ∀ q ∈ st, (Prod.snd q).totalProjects = 0) :
    ∀ q ∈ creditUser st v e monthKey, (Prod.snd q).totalProjects = 0 := by
  intro q hq
  rcases mem_setStats st v _ q hq with h | h
  · rw [h]
    show (addProjectToHistory _ e monthKey).totalProjects = 0
    rw [addProjectToHistory_totalProjects]
    cases hf : findStats st v with
    | none => rfl
    | some y => exact hinv (v, y) (findStats_mem st v y hf)
  · exact hinv q h

/-- A distribution-loop step preserves the invariant. -/
theorem distributeStep_totalProjects_inv (c : Option ℚ) (tU uP : ℚ)
    (mk2 : String) (st : StatsStore) (q0 : Nat × ℚ)
    (hinv : ∀ q ∈ st, (Prod.snd q).totalProjects = 0) :
    ∀ q ∈ distributeStep c tU uP mk2 st q0, (Prod.snd q).totalProjects = 0 := by
  unfold distributeStep
  split
  · exact creditUser_totalProjects_inv st q0.1 _ mk2 hinv
  · exact hinv

/-- The whole distribution loop preserves the invariant. -/
theorem foldl_distributeStep_totalProjects_inv (c : Option ℚ) (tU uP : ℚ)
    (mk2 : String) (l : List (Nat × ℚ)) :
    ∀ st : StatsStore, (∀ q ∈ st, (Prod.snd q).totalProjects = 0) →
      ∀ q ∈ l.foldl (distributeStep c tU uP mk2) st,
        (Prod.snd q).totalProjects = 0 := by
  induction l with
  | nil => intro st hinv; exact hinv
  | cons a rest ih =>
    intro st hinv
    exact ih _ (distributeStep_totalProjects_inv c tU uP mk2 st a hinv)

/-- Points distribution preserves the invariant. -/
theorem distribute_totalProjects_inv (s : DistState) (updates : List DUpdate)
    (monthKey : String)
    (hinv : ∀ q ∈ s.stats, (Prod.snd q).totalProjects = 0) :
    ∀ q ∈ (calculateAndDistributePoints s updates monthKey).stats,
      (Prod.snd q).totalProjects = 0 := by
  by_cases hpd : s.project.pointsDistributed = true
  · unfold calculateAndDistributePoints
    rw [hpd, if_pos rfl]
    exact hinv
  · have hf : s.project.pointsDistributed = false := by
      revert hpd
      cases s.project.pointsDistributed <;> simp
    rw [calculateAndDistributePoints_eq s updates monthKey hf]
    exact foldl_distributeStep_totalProjects_inv _ _ _ _ _ _
      (creditUser_totalProjects_inv _ _ _ _ hinv)

/-- Progress recomputation preserves the invariant. -/
theorem calculateProgress_totalProjects_inv (s : DistState)
    (modules : List ModuleState) (now : ℚ) (updates : List DUpdate)
    (monthKey : String)
    (hinv : ∀ q ∈ s.stats, (Prod.snd q).totalProjects = 0) :
    ∀ q ∈ (calculateProgress s modules now updates monthKey).stats,
      (Prod.snd q).totalProjects = 0 := by
  unfold calculateProgress
  split
  · exact hinv
  · dsimp only
    split
    · split
      · exact distribute_totalProjects_inv _ updates monthKey hinv
      · exact hinv
    · exact hinv

/-- C10: no operation modifies `UserStats.totalProjects`:
`addProjectToHistory` never touches it, points distribution and progress
recomputation keep every stored record at its schema default 0, and the
my-stats completion rate computed from a zero `totalProjects` is 0. -/
theorem total_projects_never_modified (st0 : UserStatsState)
    (e : HistoryEntry) (monthKey : String) (s : DistState)
    (updates : List DUpdate) (modules : List ModuleState) (now : ℚ) :
    (addProjectToHistory st0 e monthKey).totalProjects = st0.totalProjects ∧
    ((∀ q ∈ s.stats, (Prod.snd q).totalProjects = 0) →
      ∀ q ∈ (calculateAndDistributePoints s updates monthKey).stats,
        (Prod.snd q).totalProjects = 0) ∧
    ((∀ q ∈ s.stats, (Prod.snd q).totalProjects = 0) →
      ∀ q ∈ (calculateProgress s modules now updates monthKey).stats,
        (Prod.snd q).totalProjects = 0) ∧
    (st0.totalProjects = 0 → completionRate st0 = 0) := by
  refine ⟨addProjectToHistory_totalProjects st0 e monthKey, ?_, ?_, ?_⟩
  · intro hinv
    exact distribute_totalProjects_inv s updates monthKey hinv
  · intro hinv
    exact calculateProgress_totalProjects_inv s modules now updates monthKey hinv
  · intro h
    unfold completionRate
    rw [h]
    norm_num

/-- Witness for `total_projects_never_modified`: the empty store and a
default stats record. -/
theorem total_projects_never_modified_witness :
    (∀ q ∈ (DistState.mk exampleProject []).stats,
      (Prod.snd q).totalProjects = 0) ∧
    (∀ q ∈ (calculateAndDistributePoints (DistState.mk exampleProject [])
        exampleUpdates "2025-01").stats, (Prod.snd q).totalProjects = 0) ∧
    defaultUserStats.totalProjects = 0 ∧
    completionRate defaultUserStats = 0 :=
  ⟨by intro q hq; simp at hq,
    (total_projects_never_modified defaultUserStats
      (HistoryEntry.mk Role.lead 1 1 none) "2025-01"
      (DistState.mk exampleProject []) exampleUpdates [] 0).2.1
      (by intro q hq; simp at hq),
    rfl,
    (total_projects_never_modified defaultUserStats
      (HistoryEntry.mk Role.lead 1 1 none) "2025-01"
      (DistState.mk exampleProject []) exampleUpdates [] 0).2.2.2 rfl⟩

end UserManagement
